import Mathlib

/-!
Verification of the Splitwise expense-analytics app (src/app.py).

The embedding below translates the expense extraction pipeline
(`fetch_expenses`) and the date-range selection logic of `main` into Lean.
Library calls of the Python code are modelled as follows:

* `float(...)` on a share string either yields a rational number or raises;
  a raw share is therefore an `Option ℚ` (`none` = the conversion raises).
* `pd.to_datetime(...)` either yields a timestamp or raises; a raw date is
  an `Option ℤ` (`none` = the conversion raises); timestamps only need
  equality and order here, so `ℤ` suffices.
* `calendar.monthrange(y, m)[1]` is the number of days of month `m` in
  year `y` of the proleptic Gregorian calendar, embedded as
  `monthrange_last` (with `calendar.isleap` as `isleap`).
Monetary amounts are exact rationals.
-/

/-- A participant entry of a raw expense, as returned by the API client
(`expense.getUsers()` elements). `owedShare`/`paidShare` hold the result of
`float(user.getOwedShare())` / `float(user.getPaidShare())`; `none` models
an unparseable value (the conversion raises). -/
structure RawUser where
  id : ℕ
  owedShare : Option ℚ
  paidShare : Option ℚ
  deriving DecidableEq

/-- A raw expense, as returned by `sObj.getExpenses(...)`. `category` is
`none` when `expense.getCategory()` is falsy; `date` is the result of
`pd.to_datetime(expense.getDate())` with `none` modelling a parse failure. -/
structure RawExpense where
  category : Option String
  date : Option ℤ
  description : String
  users : List RawUser
  deriving DecidableEq

/-- An output record appended to `month_expenses` in `fetch_expenses`. -/
structure Record where
  category : String
  amount : ℚ
  date : ℤ
  description : String
  deriving DecidableEq

/-- Line 28 of app.py:
`category = expense.getCategory().getName() if expense.getCategory() else "Uncategorized"`. -/
def resolveCategory (e : RawExpense) : String :=
  match e.category with
  | some c => c
  | none => "Uncategorized"

/-- ASCII lower-casing of one character, as done by Python `str.lower()`
on the ASCII range (category names are ASCII). -/
def lowerChar (c : Char) : Char :=
  if 65 ≤ c.toNat ∧ c.toNat ≤ 90 then Char.ofNat (c.toNat + 32) else c

/-- Python `category.lower()` on ASCII strings. -/
def lowerString (s : String) : String :=
  ⟨s.data.map lowerChar⟩

/-- Lines 38-57 of app.py: the body executed for the participant entry whose
id equals the current user's id. Converting either share raises (propagated
as `.error`); otherwise zero, one, or - never - two records are appended. -/
def emitForUser (category : String) (date : ℤ) (desc : String) (u : RawUser) :
    Except String (List Record) :=
  match u.owedShare with
  | none => .error "could not convert owed share to float"
  | some owed_share =>
    match u.paidShare with
    | none => .error "could not convert paid share to float"
    | some paid_share =>
      .ok ((if 0 < owed_share then [⟨category, owed_share, date, desc⟩] else []) ++
           (if 0 < paid_share ∧ owed_share = 0 then [⟨category, paid_share, date, desc⟩] else []))

/-- Lines 36-59 of app.py: `for user in expense.getUsers(): if user.getId()
== user_id: ...; break`. The loop stops at the first matching entry. -/
def userLoop (userId : ℕ) (category : String) (date : ℤ) (desc : String) :
    List RawUser → Except String (List Record)
  | [] => .ok []
  | u :: rest =>
    if u.id = userId then emitForUser category date desc u
    else userLoop userId category date desc rest

/-- Lines 27-60 of app.py: the `try` body run for one expense. `.ok recs`
is the list of records this expense appends; `.error msg` models an
exception caught by the `except` clause (the expense is skipped). -/
def processExpense (userId : ℕ) (e : RawExpense) : Except String (List Record) :=
  if lowerString (resolveCategory e) = "general" then .ok []
  else
    match e.date with
    | none => .error "error parsing expense date"
    | some d => userLoop userId (resolveCategory e) d e.description e.users

/-- Lines 24-65 of app.py: the whole loop of `fetch_expenses`, accumulating
`month_expenses`; an expense whose `try` body raises contributes nothing. -/
def fetch_expenses (userId : ℕ) (all_expenses : List RawExpense) : List Record :=
  all_expenses.foldl
    (fun acc e =>
      match processExpense userId e with
      | .ok recs => acc ++ recs
      | .error _ => acc)
    []

/-- The records a single expense contributes to `fetch_expenses` output. -/
def contribution (userId : ℕ) (e : RawExpense) : List Record :=
  match processExpense userId e with
  | .ok recs => recs
  | .error _ => []

/-- Line 208 of app.py: `df.groupby('category')['amount'].sum()`, one row
per distinct category. -/
def df_summary (rs : List Record) : List (String × ℚ) :=
  (rs.map Record.category).dedup.map fun c =>
    (c, ((rs.filter fun r => decide (r.category = c)).map Record.amount).sum)

/-- Line 115 of app.py: `df.groupby('date')['amount'].sum()`, one row per
distinct date. -/
def daily_expenses (rs : List Record) : List (ℤ × ℚ) :=
  (rs.map Record.date).dedup.map fun d =>
    (d, ((rs.filter fun r => decide (r.date = d)).map Record.amount).sum)

/-- Line 229 of app.py: `total_amount = df['amount'].sum()`. -/
def total_amount (rs : List Record) : ℚ :=
  (rs.map Record.amount).sum

/-- A calendar datetime as built by `datetime(year, month, day)`. -/
structure Datetime where
  year : ℤ
  month : ℕ
  day : ℕ
  deriving DecidableEq

/-- Python `calendar.isleap(y)`: proleptic Gregorian leap-year test. -/
def isleap (y : ℤ) : Bool :=
  y % 4 == 0 && (y % 100 != 0 || y % 400 == 0)

/-- Python `calendar.monthrange(y, m)[1]`: the last day of month `m` of
year `y`. -/
def monthrange_last (y : ℤ) (m : ℕ) : ℕ :=
  if m = 2 then (if isleap y then 29 else 28)
  else if m = 4 ∨ m = 6 ∨ m = 9 ∨ m = 11 then 30
  else 31

/-- Lines 188-196 of app.py: the calendar-month (non-Discover) branch of
the date-range selection in `main`, returning `(start_date, end_date)`. -/
def calendar_month_range (current_year : ℤ) (selected_month : ℕ) :
    Datetime × Datetime :=
  let last_day := monthrange_last current_year selected_month
  let start_date : Datetime := ⟨current_year, selected_month, 1⟩
  if last_day = 30 ∨ last_day = 31 then
    let next_month := if selected_month < 12 then selected_month + 1 else 1
    let next_year := if selected_month < 12 then current_year else current_year + 1
    (start_date, ⟨next_year, next_month, 1⟩)
  else
    (start_date, ⟨current_year, selected_month, last_day⟩)

/-- Lines 181-187 of app.py: the Discover branch of the date-range
selection in `main`, returning `(start_date, end_date)`. -/
def discover_range (current_year : ℤ) (selected_month : ℕ) :
    Datetime × Datetime :=
  let before_month := if selected_month > 1 then selected_month - 1 else 12
  let before_year := if selected_month > 1 then current_year else current_year - 1
  (⟨before_year, before_month, 26⟩, ⟨current_year, selected_month, 26⟩)

theorem contribution_step (userId : ℕ) (acc : List Record) (e : RawExpense) :
    (match processExpense userId e with
     | .ok recs => acc ++ recs
     | .error _ => acc) = acc ++ contribution userId e := by
  unfold contribution
  cases processExpense userId e <;> simp

theorem fetch_expenses_foldl (userId : ℕ) (es : List RawExpense)
    (init : List Record) :
    es.foldl
      (fun acc e =>
        match processExpense userId e with
        | .ok recs => acc ++ recs
        | .error _ => acc) init
      = init ++ (es.map (contribution userId)).flatten := by
  induction es generalizing init with
  | nil => simp
  | cons e t ih =>
    simp only [List.foldl_cons, List.map_cons, List.flatten_cons]
    rw [contribution_step, ih, List.append_assoc]

theorem fetch_expenses_eq_flatten (userId : ℕ) (es : List RawExpense) :
    fetch_expenses userId es = (es.map (contribution userId)).flatten := by
  unfold fetch_expenses
  rw [fetch_expenses_foldl]
  simp

theorem fetch_expenses_append (userId : ℕ) (es₁ es₂ : List RawExpense) :
    fetch_expenses userId (es₁ ++ es₂)
      = fetch_expenses userId es₁ ++ fetch_expenses userId es₂ := by
  rw [fetch_expenses_eq_flatten, fetch_expenses_eq_flatten,
    fetch_expenses_eq_flatten, List.map_append]
  exact List.flatten_append _ _

theorem sum_map_filter_not {β : Type} (val : β → ℚ) (p : β → Bool) (l : List β) :
    ((l.filter p).map val).sum + ((l.filter fun x => !p x).map val).sum
      = (l.map val).sum := by
  have h := (List.filter_append_perm p l).map val
  rw [List.map_append] at h
  rw [← List.sum_append]
  exact h.sum_eq

theorem sum_over_keys {α β : Type} [DecidableEq α] (key : β → α) (val : β → ℚ)
    (ks : List α) :
    ∀ l : List β, ks.Nodup → (∀ x ∈ l, key x ∈ ks) →
      (ks.map fun k => ((l.filter fun x => decide (key x = k)).map val).sum).sum
        = (l.map val).sum := by
  induction ks with
  | nil =>
    intro l _ hcov
    cases l with
    | nil => simp
    | cons x t => exact absurd (hcov x (List.mem_cons_self x t)) (List.not_mem_nil _)
  | cons k ks ih =>
    intro l hnd hcov
    simp only [List.map_cons, List.sum_cons]
    have hk : k ∉ ks := (List.nodup_cons.mp hnd).1
    have hnd' : ks.Nodup := (List.nodup_cons.mp hnd).2
    have hcov' : ∀ x ∈ l.filter (fun x => !decide (key x = k)), key x ∈ ks := by
      intro x hx
      have hx' := List.mem_filter.mp hx
      have h2 : ¬ (key x = k) := by simpa using hx'.2
      rcases List.mem_cons.mp (hcov x hx'.1) with h | h
      · exact absurd h h2
      · exact h
    have hmapeq :
        (ks.map fun k' => ((l.filter fun x => decide (key x = k')).map val).sum)
          = ks.map fun k' =>
              (((l.filter (fun x => !decide (key x = k))).filter
                  fun x => decide (key x = k')).map val).sum := by
      apply List.map_eq_map_iff.mpr
      intro k' hk'
      have hkk' : k' ≠ k := fun h => hk (h ▸ hk')
      rw [List.filter_filter]
      congr 1
      congr 1
      apply List.filter_congr
      intro x _
      by_cases h : key x = k'
      · simp [h, hkk']
      · simp [h]
    rw [hmapeq, ih _ hnd' hcov']
    exact sum_map_filter_not val (fun x => decide (key x = k)) l

theorem userLoop_append_no_match (userId : ℕ) (cat : String) (d : ℤ)
    (desc : String) (pre rest : List RawUser)
    (hpre : ∀ v ∈ pre, v.id ≠ userId) :
    userLoop userId cat d desc (pre ++ rest) = userLoop userId cat d desc rest := by
  induction pre with
  | nil => rfl
  | cons v t ih =>
    have hv : ¬ (v.id = userId) := hpre v (List.mem_cons_self v t)
    simp only [List.cons_append, userLoop, if_neg hv]
    exact ih fun w hw => hpre w (List.mem_cons_of_mem v hw)

theorem userLoop_first_match (userId : ℕ) (cat : String) (d : ℤ) (desc : String)
    (u : RawUser) (rest : List RawUser) (hid : u.id = userId) :
    userLoop userId cat d desc (u :: rest) = emitForUser cat d desc u := by
  simp only [userLoop, if_pos hid]

theorem mem_emitForUser (cat : String) (d : ℤ) (desc : String) (u : RawUser)
    (recs : List Record) (r : Record) (h : emitForUser cat d desc u = .ok recs)
    (hr : r ∈ recs) :
    r.category = cat ∧ 0 < r.amount ∧ r.date = d ∧ r.description = desc := by
  unfold emitForUser at h
  cases howed : u.owedShare with
  | none => rw [howed] at h; exact absurd h (by simp)
  | some owed =>
    cases hpaid : u.paidShare with
    | none => rw [howed, hpaid] at h; exact absurd h (by simp)
    | some paid =>
      rw [howed, hpaid] at h
      dsimp only at h
      split_ifs at h with h1 h2 h2 <;>
        (simp only [Except.ok.injEq] at h; subst h)
      · rcases List.mem_append.mp hr with hm | hm <;>
          (rw [List.mem_singleton] at hm; subst hm)
        · exact ⟨rfl, h1, rfl, rfl⟩
        · exact ⟨rfl, h2.1, rfl, rfl⟩
      · rw [List.append_nil, List.mem_singleton] at hr
        subst hr
        exact ⟨rfl, h1, rfl, rfl⟩
      · rw [List.nil_append, List.mem_singleton] at hr
        subst hr
        exact ⟨rfl, h2.1, rfl, rfl⟩
      · simp at hr

theorem mem_userLoop (userId : ℕ) (cat : String) (d : ℤ) (desc : String) :
    ∀ (us : List RawUser) (recs : List Record) (r : Record),
      userLoop userId cat d desc us = .ok recs → r ∈ recs →
      r.category = cat ∧ 0 < r.amount ∧ r.date = d ∧ r.description = desc := by
  intro us
  induction us with
  | nil =>
    intro recs r h hr
    simp only [userLoop, Except.ok.injEq] at h
    subst h
    cases hr
  | cons u rest ih =>
    intro recs r h hr
    by_cases hid : u.id = userId
    · rw [userLoop_first_match userId cat d desc u rest hid] at h
      exact mem_emitForUser cat d desc u recs r h hr
    · simp only [userLoop, if_neg hid] at h
      exact ih recs r h hr

theorem mem_processExpense (userId : ℕ) (e : RawExpense) (recs : List Record)
    (r : Record) (h : processExpense userId e = .ok recs) (hr : r ∈ recs) :
    r.category = resolveCategory e ∧ 0 < r.amount ∧ e.date = some r.date ∧
      r.description = e.description := by
  unfold processExpense at h
  split_ifs at h with hg
  · simp only [Except.ok.injEq] at h
    subst h
    cases hr
  · cases hd : e.date with
    | none => rw [hd] at h; exact absurd h (by simp)
    | some d =>
      rw [hd] at h
      obtain ⟨h1, h2, h3, h4⟩ :=
        mem_userLoop userId (resolveCategory e) d e.description e.users recs r h hr
      exact ⟨h1, h2, congrArg some h3.symm, h4⟩

theorem mem_contribution (userId : ℕ) (e : RawExpense) (r : Record)
    (hr : r ∈ contribution userId e) :
    r.category = resolveCategory e ∧ 0 < r.amount := by
  unfold contribution at hr
  cases h : processExpense userId e with
  | ok recs =>
    rw [h] at hr
    obtain ⟨h1, h2, _, _⟩ := mem_processExpense userId e recs r h hr
    exact ⟨h1, h2⟩
  | error msg =>
    rw [h] at hr
    cases hr

theorem emitForUser_length (cat : String) (d : ℤ) (desc : String) (u : RawUser)
    (recs : List Record) (h : emitForUser cat d desc u = .ok recs) :
    recs.length ≤ 1 := by
  unfold emitForUser at h
  cases howed : u.owedShare with
  | none => rw [howed] at h; exact absurd h (by simp)
  | some owed =>
    cases hpaid : u.paidShare with
    | none => rw [howed, hpaid] at h; exact absurd h (by simp)
    | some paid =>
      rw [howed, hpaid] at h
      dsimp only at h
      split_ifs at h with h1 h2 h2 <;> (simp only [Except.ok.injEq] at h; subst h)
      · exact absurd h2.2 (ne_of_gt h1)
      all_goals simp

theorem userLoop_length (userId : ℕ) (cat : String) (d : ℤ) (desc : String) :
    ∀ (us : List RawUser) (recs : List Record),
      userLoop userId cat d desc us = .ok recs → recs.length ≤ 1 := by
  intro us
  induction us with
  | nil =>
    intro recs h
    simp only [userLoop, Except.ok.injEq] at h
    subst h
    simp
  | cons u rest ih =>
    intro recs h
    by_cases hid : u.id = userId
    · rw [userLoop_first_match userId cat d desc u rest hid] at h
      exact emitForUser_length cat d desc u recs h
    · simp only [userLoop, if_neg hid] at h
      exact ih recs h

theorem contribution_length (userId : ℕ) (e : RawExpense) :
    (contribution userId e).length ≤ 1 := by
  unfold contribution
  cases h : processExpense userId e with
  | error msg => simp
  | ok recs =>
    dsimp only
    unfold processExpense at h
    split_ifs at h with hg
    · simp only [Except.ok.injEq] at h
      subst h
      simp
    · cases hd : e.date with
      | none => rw [hd] at h; exact absurd h (by simp)
      | some d =>
        rw [hd] at h
        exact userLoop_length userId _ d e.description e.users recs h

theorem contribution_no_match (userId : ℕ) (e : RawExpense)
    (h : ∀ u ∈ e.users, u.id ≠ userId) : contribution userId e = [] := by
  unfold contribution processExpense
  split_ifs with hg
  · rfl
  · cases hd : e.date with
    | none => rfl
    | some d =>
      dsimp only
      have hloop := userLoop_append_no_match userId (resolveCategory e) d
        e.description e.users [] h
      rw [List.append_nil] at hloop
      rw [hloop]
      rfl

theorem contribution_found (userId : ℕ) (e : RawExpense) (d : ℤ)
    (pre post : List RawUser) (u : RawUser)
    (hcat : ¬ (lowerString (resolveCategory e) = "general"))
    (hdate : e.date = some d)
    (husers : e.users = pre ++ u :: post)
    (hpre : ∀ v ∈ pre, v.id ≠ userId)
    (hid : u.id = userId) :
    processExpense userId e = emitForUser (resolveCategory e) d e.description u := by
  unfold processExpense
  rw [if_neg hcat, hdate]
  dsimp only
  rw [husers, userLoop_append_no_match userId _ d e.description pre (u :: post) hpre,
    userLoop_first_match userId _ d e.description u post hid]

/-- C1: Attribution rule. For every transaction that passes the category
filter and in which the target user appears as a participant (the first
matching entry, with both shares convertible), the extraction emits a
record with amount `owedShare` when `owedShare > 0` (even if `paidShare`
is also nonzero); when `owedShare = 0` and `paidShare > 0` it emits a
record with amount `paidShare`; and when both are zero it emits nothing. -/
theorem attribution_rule (userId : ℕ) (e : RawExpense) (d : ℤ)
    (pre post : List RawUser) (u : RawUser) (owed paid : ℚ)
    (hcat : ¬ (lowerString (resolveCategory e) = "general"))
    (hdate : e.date = some d)
    (husers : e.users = pre ++ u :: post)
    (hpre : ∀ v ∈ pre, v.id ≠ userId)
    (hid : u.id = userId)
    (howed : u.owedShare = some owed)
    (hpaid : u.paidShare = some paid) :
    (0 < owed →
      contribution userId e = [⟨resolveCategory e, owed, d, e.description⟩]) ∧
    (owed = 0 → 0 < paid →
      contribution userId e = [⟨resolveCategory e, paid, d, e.description⟩]) ∧
    (owed = 0 → paid = 0 → contribution userId e = []) := by
  have hproc := contribution_found userId e d pre post u hcat hdate husers hpre hid
  have hemit : emitForUser (resolveCategory e) d e.description u =
      .ok ((if 0 < owed then [⟨resolveCategory e, owed, d, e.description⟩] else []) ++
        (if 0 < paid ∧ owed = 0 then [⟨resolveCategory e, paid, d, e.description⟩]
          else [])) := by
    unfold emitForUser
    rw [howed, hpaid]
  have hcontrib : contribution userId e =
      (if 0 < owed then [⟨resolveCategory e, owed, d, e.description⟩] else []) ++
        (if 0 < paid ∧ owed = 0 then [⟨resolveCategory e, paid, d, e.description⟩]
          else []) := by
    unfold contribution
    rw [hproc, hemit]
  refine ⟨fun h1 => ?_, fun h0 hp => ?_, fun h0 hp0 => ?_⟩
  · rw [hcontrib, if_pos h1, if_neg fun hc => (ne_of_gt h1) hc.2, List.append_nil]
  · rw [hcontrib, if_neg (by rw [h0]; exact lt_irrefl 0), if_pos ⟨hp, h0⟩,
      List.nil_append]
  · rw [hcontrib, if_neg (by rw [h0]; exact lt_irrefl 0),
      if_neg (by rw [hp0]; exact fun hc => lt_irrefl 0 hc.1)]
    rfl

theorem attribution_rule_witness :
    contribution 7 ⟨some "Food", some 10, "lunch", [⟨7, some 5, some 2⟩]⟩ =
      [⟨"Food", 5, 10, "lunch"⟩] :=
  (attribution_rule 7 ⟨some "Food", some 10, "lunch", [⟨7, some 5, some 2⟩]⟩ 10
    [] [] ⟨7, some 5, some 2⟩ 5 2 (by decide) rfl rfl (by simp) rfl rfl rfl).1
    (by decide)

/-- C2: Calendar-month date-range rule. In calendar-month (non-Discover)
mode the start date is the first day of the selected month; the end date is
the first day of the following month when the month has 30 or 31 days
(rolling the year forward for December), and the last calendar day of the
month otherwise (February 28 in a non-leap year, February 29 in a leap
year, with no widening). -/
theorem calendar_month_range_rule (y : ℤ) (m : ℕ) (h1 : 1 ≤ m) (h2 : m ≤ 12) :
    (calendar_month_range y m).1 = ⟨y, m, 1⟩ ∧
      (monthrange_last y m = 30 ∨ monthrange_last y m = 31 →
        (calendar_month_range y m).2
          = ⟨if m = 12 then y + 1 else y, if m = 12 then 1 else m + 1, 1⟩) ∧
      (¬ (monthrange_last y m = 30 ∨ monthrange_last y m = 31) →
        (calendar_month_range y m).2 = ⟨y, m, monthrange_last y m⟩) ∧
      (m = 2 → isleap y = false → (calendar_month_range y m).2 = ⟨y, 2, 28⟩) ∧
      (m = 2 → isleap y = true → (calendar_month_range y m).2 = ⟨y, 2, 29⟩) := by
  interval_cases m <;>
    cases hly : isleap y <;>
      simp [calendar_month_range, monthrange_last, hly]

theorem calendar_month_range_rule_witness :
    (calendar_month_range 2023 2).1 = ⟨2023, 2, 1⟩ ∧
      (calendar_month_range 2023 2).2 = ⟨2023, 2, 28⟩ :=
  ⟨(calendar_month_range_rule 2023 2 (by decide) (by decide)).1,
    (calendar_month_range_rule 2023 2 (by decide) (by decide)).2.2.2.1 rfl
      (by decide)⟩

/-- C3: General-category filter. A transaction whose resolved category name
case-insensitively equals "General" contributes no record, and removing it
from the fetched list leaves the extraction output unchanged, regardless of
the target user's shares. -/
theorem general_filtered (userId : ℕ) (e : RawExpense)
    (hcat : lowerString (resolveCategory e) = "general") :
    contribution userId e = [] ∧
      ∀ es₁ es₂ : List RawExpense,
        fetch_expenses userId (es₁ ++ e :: es₂)
          = fetch_expenses userId (es₁ ++ es₂) := by
  have hc : contribution userId e = [] := by
    unfold contribution processExpense
    rw [if_pos hcat]
  refine ⟨hc, fun es₁ es₂ => ?_⟩
  rw [fetch_expenses_eq_flatten, fetch_expenses_eq_flatten, List.map_append,
    List.map_append, List.map_cons, hc, List.flatten_append _ _,
    List.flatten_append _ _, List.flatten_cons]
  simp

theorem general_filtered_witness :
    contribution 7 ⟨some "General", some 10, "x", [⟨7, some 5, some 2⟩]⟩ = [] :=
  (general_filtered 7 ⟨some "General", some 10, "x", [⟨7, some 5, some 2⟩]⟩
    (by decide)).1

/-- C4: Per-transaction output cardinality. Every transaction contributes
zero or one record to the extraction output, never two; a transaction in
which no participant entry matches the target user's id contributes no
record. -/
theorem per_transaction_cardinality (userId : ℕ) (e : RawExpense) :
    (contribution userId e).length ≤ 1 ∧
      ((∀ u ∈ e.users, u.id ≠ userId) → contribution userId e = []) :=
  ⟨contribution_length userId e, fun h => contribution_no_match userId e h⟩

theorem per_transaction_cardinality_witness :
    (contribution 7 ⟨some "Food", some 10, "z", [⟨8, some 5, some 2⟩]⟩).length ≤ 1 ∧
      contribution 7 ⟨some "Food", some 10, "z", [⟨8, some 5, some 2⟩]⟩ = [] :=
  ⟨(per_transaction_cardinality 7 ⟨some "Food", some 10, "z", [⟨8, some 5, some 2⟩]⟩).1,
    (per_transaction_cardinality 7 ⟨some "Food", some 10, "z", [⟨8, some 5, some 2⟩]⟩).2
      (by decide)⟩

/-- C5: Aggregate-sum consistency. For any non-empty record list, the sum
of the per-category totals (`df_summary`) equals the displayed total
(`total_amount`), and so does the sum of the per-day totals
(`daily_expenses`). -/
theorem aggregate_sum_consistency (rs : List Record) (_hne : rs ≠ []) :
    ((df_summary rs).map Prod.snd).sum = total_amount rs ∧
      ((daily_expenses rs).map Prod.snd).sum = total_amount rs := by
  constructor
  · unfold df_summary total_amount
    rw [List.map_map]
    exact sum_over_keys Record.category Record.amount
      (rs.map Record.category).dedup rs (List.nodup_dedup _)
      fun x hx => List.mem_dedup.mpr (List.mem_map_of_mem _ hx)
  · unfold daily_expenses total_amount
    rw [List.map_map]
    exact sum_over_keys Record.date Record.amount
      (rs.map Record.date).dedup rs (List.nodup_dedup _)
      fun x hx => List.mem_dedup.mpr (List.mem_map_of_mem _ hx)

theorem aggregate_sum_consistency_witness :
    ([⟨"Food", 5, 10, "a"⟩, ⟨"Rent", 7, 11, "b"⟩] : List Record) ≠ [] ∧
      ((df_summary [⟨"Food", 5, 10, "a"⟩, ⟨"Rent", 7, 11, "b"⟩]).map Prod.snd).sum
          = total_amount [⟨"Food", 5, 10, "a"⟩, ⟨"Rent", 7, 11, "b"⟩] ∧
        ((daily_expenses [⟨"Food", 5, 10, "a"⟩, ⟨"Rent", 7, 11, "b"⟩]).map
            Prod.snd).sum
          = total_amount [⟨"Food", 5, 10, "a"⟩, ⟨"Rent", 7, 11, "b"⟩] :=
  ⟨by decide,
    aggregate_sum_consistency [⟨"Food", 5, 10, "a"⟩, ⟨"Rent", 7, 11, "b"⟩]
      (by decide)⟩

/-- C6: Positivity invariant. Every record in the extraction output has a
strictly positive amount; a zero-amount attribution is never emitted. -/
theorem amount_pos (userId : ℕ) (es : List RawExpense) (r : Record)
    (hr : r ∈ fetch_expenses userId es) : 0 < r.amount := by
  rw [fetch_expenses_eq_flatten] at hr
  obtain ⟨l, hl, hrl⟩ := List.mem_flatten.mp hr
  obtain ⟨e, he, rfl⟩ := List.mem_map.mp hl
  exact (mem_contribution userId e r hrl).2

theorem amount_pos_witness :
    0 < (Record.mk "Food" 5 10 "lunch").amount :=
  amount_pos 7 [⟨some "Food", some 10, "lunch", [⟨7, some 5, some 2⟩]⟩]
    ⟨"Food", 5, 10, "lunch"⟩ (by decide)

/-- C7: Uncategorized default. A transaction without a category resolves to
the literal category "Uncategorized", and every record it contributes
carries category "Uncategorized". -/
theorem uncategorized_default (userId : ℕ) (e : RawExpense)
    (hcat : e.category = none) :
    resolveCategory e = "Uncategorized" ∧
      ∀ r ∈ contribution userId e, r.category = "Uncategorized" := by
  have hres : resolveCategory e = "Uncategorized" := by
    unfold resolveCategory
    rw [hcat]
  exact ⟨hres, fun r hr => (mem_contribution userId e r hr).1.trans hres⟩

theorem uncategorized_default_witness :
    (Record.mk "Uncategorized" 30 10 "y").category = "Uncategorized" :=
  (uncategorized_default 7 ⟨none, some 10, "y", [⟨7, some 0, some 30⟩]⟩ rfl).2
    ⟨"Uncategorized", 30, 10, "y"⟩ (by decide)

/-- C8: Discover-mode date-range rule. In Discover mode the start date is
the 26th of the prior month and the end date is the 26th of the selected
month; for January the prior month is December of the previous year. -/
theorem discover_range_rule (y : ℤ) (m : ℕ) (h1 : 1 ≤ m) (h2 : m ≤ 12) :
    discover_range y m
      = (⟨if m = 1 then y - 1 else y, if m = 1 then 12 else m - 1, 26⟩,
          ⟨y, m, 26⟩) := by
  by_cases hm : m = 1
  · subst hm
    simp [discover_range]
  · have hgt : m > 1 := lt_of_le_of_ne h1 (Ne.symm hm)
    simp [discover_range, hm, hgt]

theorem discover_range_rule_witness :
    discover_range 2023 1 = (⟨2022, 12, 26⟩, ⟨2023, 1, 26⟩) :=
  (discover_range_rule 2023 1 (by decide) (by decide)).trans (by decide)

/-- C9: Per-record failure isolation. If processing a single transaction
fails (the `try` body raises), that transaction is skipped individually:
the batch output equals the concatenation of the outputs of the
surrounding transactions, i.e. removing the failing transaction leaves the
extraction output unchanged. -/
theorem failure_isolation (userId : ℕ) (bad : RawExpense)
    (es₁ es₂ : List RawExpense)
    (h : ∃ msg, processExpense userId bad = .error msg) :
    fetch_expenses userId (es₁ ++ bad :: es₂)
        = fetch_expenses userId es₁ ++ fetch_expenses userId es₂ ∧
      fetch_expenses userId (es₁ ++ bad :: es₂)
        = fetch_expenses userId (es₁ ++ es₂) := by
  obtain ⟨msg, hmsg⟩ := h
  have hc : contribution userId bad = [] := by
    unfold contribution
    rw [hmsg]
  have hb : fetch_expenses userId [bad] = [] := by
    rw [fetch_expenses_eq_flatten]
    simp [hc]
  have h1 : fetch_expenses userId (es₁ ++ bad :: es₂)
      = fetch_expenses userId es₁ ++ fetch_expenses userId es₂ := by
    have hsplit : es₁ ++ bad :: es₂ = es₁ ++ [bad] ++ es₂ := by simp
    rw [hsplit, fetch_expenses_append, fetch_expenses_append, hb, List.append_nil]
  exact ⟨h1, by rw [h1, fetch_expenses_append]⟩

theorem failure_isolation_witness :
    fetch_expenses 7
        ([⟨some "Food", some 10, "lunch", [⟨7, some 5, some 2⟩]⟩] ++
          (⟨some "Rent", none, "bad", [⟨7, some 4, some 4⟩]⟩ : RawExpense) ::
            [⟨none, some 11, "y", [⟨7, some 0, some 30⟩]⟩])
        = fetch_expenses 7 [⟨some "Food", some 10, "lunch", [⟨7, some 5, some 2⟩]⟩] ++
            fetch_expenses 7 [⟨none, some 11, "y", [⟨7, some 0, some 30⟩]⟩] :=
  (failure_isolation 7 ⟨some "Rent", none, "bad", [⟨7, some 4, some 4⟩]⟩
    [⟨some "Food", some 10, "lunch", [⟨7, some 5, some 2⟩]⟩]
    [⟨none, some 11, "y", [⟨7, some 0, some 30⟩]⟩]
    ⟨"error parsing expense date", rfl⟩).1

/-- C10: Order preservation and first-match rule. The extraction output is
the concatenation, in input order, of the per-transaction contributions
(so records inherit the order of their source transactions); and when a
transaction's participant list contains several entries with the target
user's id, everything after the first matching entry is irrelevant to what
is emitted. -/
theorem order_preservation_first_match (userId : ℕ) (es : List RawExpense)
    (e : RawExpense) (pre post post' : List RawUser) (u : RawUser)
    (hpre : ∀ v ∈ pre, v.id ≠ userId) (hid : u.id = userId) :
    fetch_expenses userId es = (es.map (contribution userId)).flatten ∧
      processExpense userId { e with users := pre ++ u :: post }
        = processExpense userId { e with users := pre ++ u :: post' } := by
  refine ⟨fetch_expenses_eq_flatten userId es, ?_⟩
  have hview : ∀ ps : List RawUser,
      processExpense userId { e with users := ps }
        = if lowerString (resolveCategory e) = "general" then .ok []
          else
            match e.date with
            | none => .error "error parsing expense date"
            | some d => userLoop userId (resolveCategory e) d e.description ps :=
    fun ps => rfl
  rw [hview (pre ++ u :: post), hview (pre ++ u :: post')]
  split_ifs with hg
  · rfl
  · cases e.date with
    | none => rfl
    | some d =>
      dsimp only
      rw [userLoop_append_no_match userId _ d e.description pre (u :: post) hpre,
        userLoop_append_no_match userId _ d e.description pre (u :: post') hpre,
        userLoop_first_match userId _ d e.description u post hid,
        userLoop_first_match userId _ d e.description u post' hid]

theorem order_preservation_first_match_witness :
    fetch_expenses 7
        [⟨some "Food", some 10, "lunch", [⟨7, some 5, some 2⟩]⟩,
          ⟨none, some 11, "y", [⟨7, some 0, some 30⟩]⟩]
        = ([⟨some "Food", some 10, "lunch", [⟨7, some 5, some 2⟩]⟩,
            ⟨none, some 11, "y", [⟨7, some 0, some 30⟩]⟩].map
              (contribution 7)).flatten ∧
      processExpense 7
          ⟨some "Food", some 10, "lunch",
            [⟨8, some 1, some 1⟩] ++ (⟨7, some 5, some 2⟩ : RawUser) ::
              [⟨7, some 9, some 9⟩]⟩
        = processExpense 7
            ⟨some "Food", some 10, "lunch",
              [⟨8, some 1, some 1⟩] ++ (⟨7, some 5, some 2⟩ : RawUser) :: []⟩ :=
  order_preservation_first_match 7
    [⟨some "Food", some 10, "lunch", [⟨7, some 5, some 2⟩]⟩,
      ⟨none, some 11, "y", [⟨7, some 0, some 30⟩]⟩]
    ⟨some "Food", some 10, "lunch", []⟩
    [⟨8, some 1, some 1⟩] [⟨7, some 9, some 9⟩] [] ⟨7, some 5, some 2⟩
    (by decide) rfl
